import Mathlib

/-
Verification of the Cyclic-Particle-Accelerator repository.

Shallow embedding of src/Project/Bunch.py and src/Project/RecordSynchrocyclotron.py.
Python floats are modelled as exact rationals; numpy normal draws
np.random.normal(mu, sigma) are modelled as mu + sigma * z where z is the next
value of an explicit stream of standard-normal draws (numpy raises ValueError
when sigma < 0, which we model with an error value).
-/

/-- Python exceptions that the modelled code can raise. -/
inductive PyError where
  | typeError
  | valueError
  | zeroDivisionError
  | attributeError
deriving DecidableEq, Repr

/-- A 3-component vector of rationals (numpy 3-arrays in the source). -/
structure Vec3 where
  x : ℚ
  y : ℚ
  z : ℚ
deriving DecidableEq, Repr

/-- The observable state of one charged-particle object: its display name and
its phase-space coordinates.  The Particle class itself is an external
collaborator of Bunch.py; only these attributes are read or written by the
code under verification. -/
structure Particle where
  name : String
  position : Vec3
  velocity : Vec3
deriving DecidableEq, Repr

/-- The EMField collaborator, restricted to the two scalar bounds that
Bunch.adaptiveStep reads. -/
structure EMField where
  electricLowerBound : ℚ
  electricUpperBound : ℚ
deriving DecidableEq, Repr

/-- Value-level state of a Bunch object (src/Project/Bunch.py).
The concrete Python class of the object is modelled by the `species` tag
(isinstance(other, self.__class__) becomes equality of tags).  The attribute
average_kinetic_energy can be deleted at runtime by __add__ (delattr), so it
is modelled as an Option: `none` means the attribute is absent. -/
structure Bunch where
  species : String
  average_kinetic_energy : Option ℚ
  bunch_number : ℕ
  positionSigma : ℚ
  bunchName : String
  bunch : List Particle
deriving DecidableEq, Repr

/-- Bunch.adaptiveStep (Bunch.py lines 213-234): pad the electric field
bounds outward by 10 percent of their own magnitude; if any member has its
x-position inside the padded closed interval, return deltaT * 0.01, else
return deltaT unchanged. -/
def Bunch.adaptiveStep (self : Bunch) (deltaT : ℚ) (field : EMField) : ℚ :=
  let lowerBound := field.electricLowerBound - (1/10) * |field.electricLowerBound|
  let upperBound := field.electricUpperBound + (1/10) * |field.electricUpperBound|
  let electric_influence := self.bunch.map fun i =>
    decide (lowerBound ≤ i.position.x) && decide (i.position.x ≤ upperBound)
  if electric_influence.any id then deltaT * (1/100) else deltaT

/-- Claim C1: adaptiveStep(deltaT, field) returns deltaT * 0.01 if at least one
member has its x-position within the padded interval
[electricLowerBound - 0.1 * abs electricLowerBound,
 electricUpperBound + 0.1 * abs electricUpperBound] (both endpoints included),
and returns deltaT unchanged otherwise. -/
theorem claim1_adaptiveStep (b : Bunch) (deltaT : ℚ) (field : EMField) :
    b.adaptiveStep deltaT field =
      if ∃ p ∈ b.bunch,
          field.electricLowerBound - (1/10) * |field.electricLowerBound| ≤ p.position.x ∧
          p.position.x ≤ field.electricUpperBound + (1/10) * |field.electricUpperBound| then
        deltaT * (1/100)
      else
        deltaT := by
  have key : ((b.bunch.map fun i =>
      decide (field.electricLowerBound - (1/10) * |field.electricLowerBound| ≤ i.position.x) &&
      decide (i.position.x ≤ field.electricUpperBound + (1/10) * |field.electricUpperBound|)).any
        id = true) ↔
      ∃ p ∈ b.bunch,
        field.electricLowerBound - (1/10) * |field.electricLowerBound| ≤ p.position.x ∧
        p.position.x ≤ field.electricUpperBound + (1/10) * |field.electricUpperBound| := by
    simp
  dsimp only [Bunch.adaptiveStep]
  exact if_congr key rfl rfl

/-- Renaming applied by the loop in Bunch.__add__ to the member sitting at
0-based index i of the combined list: Python computes
particle.name[:-1] + str(new_bunch.bunch.index(particle) + 1); since the
list entries are pairwise-distinct objects and index compares by object
identity, index(particle) is the position of the particle in the list. -/
def renameAt (i : ℕ) (p : Particle) : Particle :=
  { p with name := p.name.dropRight 1 ++ toString (i + 1) }

/-- The in-place renaming loop of Bunch.__add__, with k the index of the
first element of the remaining list. -/
def renameFrom (k : ℕ) : List Particle → List Particle
  | [] => []
  | p :: ps => renameAt k p :: renameFrom (k + 1) ps

/-- Bunch.__add__ (Bunch.py lines 100-111).  isinstance(other, self.__class__)
is modelled as equality of species tags; copy.deepcopy(self) is the identity
on the value level; delattr(new_bunch, average_kinetic_energy) raises an
AttributeError when the left operand (hence its deep copy) lacks the
attribute, which happens exactly when the left operand is itself the result
of a combine. -/
def Bunch.add (self other : Bunch) : Except PyError Bunch :=
  if other.species = self.species then
    match self.average_kinetic_energy with
    | none => .error .attributeError
    | some _ =>
      .ok { species := self.species
            average_kinetic_energy := none
            bunch_number := self.bunch_number + other.bunch_number
            positionSigma := self.positionSigma
            bunchName := "combined " ++ other.bunchName
            bunch := renameFrom 0 (self.bunch ++ other.bunch) }
  else .error .typeError

theorem renameFrom_length (k : ℕ) (l : List Particle) :
    (renameFrom k l).length = l.length := by
  induction l generalizing k with
  | nil => rfl
  | cons p ps ih => simp [renameFrom, ih]

theorem renameFrom_get (l : List Particle) (k i : ℕ)
    (h : i < (renameFrom k l).length) (h' : i < l.length) :
    (renameFrom k l).get ⟨i, h⟩ = renameAt (k + i) (l.get ⟨i, h'⟩) := by
  induction l generalizing k i with
  | nil => exact absurd h' (by simp)
  | cons p ps ih =>
    cases i with
    | zero => rfl
    | succ j =>
      have hj : j < (renameFrom (k + 1) ps).length := by
        simpa [renameFrom] using h
      have hj' : j < ps.length := by simpa using h'
      have := ih (k + 1) j hj hj'
      simpa [renameFrom, Nat.add_assoc, Nat.add_comm 1 j] using this

/-- Dummy particle used only to give total lookups a default. -/
def particleDefault : Particle := ⟨"", ⟨0, 0, 0⟩, ⟨0, 0, 0⟩⟩

/-- Name of a string with its trailing decimal digits removed. -/
def stripTrailingDigits (s : String) : String :=
  String.mk ((s.data.reverse.dropWhile Char.isDigit).reverse)

/-- Formalisation of the renaming asserted by claim C2 (names renumbered
sequentially by index in the combined sequence): the member at 0-based
index i keeps the stem of its old name (the name with its trailing decimal
digits removed) and carries the new number i + 1. -/
def claimedSequentialRenaming (orig result : List Particle) : Bool :=
  (result.length == orig.length) &&
  ((List.range result.length).all fun i =>
    (result.getD i particleDefault).name ==
      stripTrailingDigits (orig.getD i particleDefault).name ++ toString (i + 1))

/-- Member of a proton bunch as the species naming scheme produces it. -/
def protonAt (i : ℕ) : Particle :=
  ⟨"proton-" ++ toString (i + 1), ⟨0, 0, 0⟩, ⟨0, 0, 0⟩⟩

/-- A ten-member proton bunch: its tenth member has the two-digit name
proton-10. -/
def bunchTen : Bunch :=
  ⟨"ProtonBunch", some 1, 10, 1/100, "Proton bunch", (List.range 10).map protonAt⟩

/-- A one-member proton bunch. -/
def bunchOne : Bunch :=
  ⟨"ProtonBunch", some 1, 1, 1/100, "Proton bunch", [protonAt 0]⟩

/-- Claim C2, counterexample: combining a ten-member bunch with a one-member
bunch of the same species does not renumber the members sequentially by
their index: the tenth member, named proton-10, becomes proton-110 (the code
only drops the last character of the old name before appending the new
index), while sequential renumbering demands proton-10. -/
theorem claim2_counterexample :
    (bunchTen.add bunchOne).map
        (fun c => claimedSequentialRenaming (bunchTen.bunch ++ bunchOne.bunch) c.bunch) =
      Except.ok false := by
  rfl

/-- Claim C2, amended: combining two bunches of the same species whose left
operand still carries the average-kinetic-energy attribute yields a bunch
whose member sequence is the left members followed by the right members,
whose particle count is the sum of the two counts, which lacks the
average-kinetic-energy attribute, and in which the member at 0-based index i
is the corresponding original member with its display name replaced by the
old name minus its last character followed by the decimal of i + 1 (this
equals sequential renumbering only when every old name carries a one-digit
suffix); combining bunches of different species raises a TypeError, and a
left operand that is itself a combined bunch raises an AttributeError. -/
theorem claim2_add_combined (A B : Bunch) :
    (A.species = B.species → A.average_kinetic_energy ≠ none →
      ∃ C, A.add B = Except.ok C ∧
        C.bunch_number = A.bunch_number + B.bunch_number ∧
        C.bunch.length = A.bunch.length + B.bunch.length ∧
        C.average_kinetic_energy = none ∧
        C.bunchName = "combined " ++ B.bunchName ∧
        ∀ i (h : i < C.bunch.length) (h' : i < (A.bunch ++ B.bunch).length),
          C.bunch.get ⟨i, h⟩ = renameAt i ((A.bunch ++ B.bunch).get ⟨i, h'⟩))
    ∧ (A.species ≠ B.species → A.add B = Except.error PyError.typeError)
    ∧ (A.species = B.species → A.average_kinetic_energy = none →
        A.add B = Except.error PyError.attributeError) := by
  refine ⟨?_, ?_, ?_⟩
  · intro hsp hk
    obtain ⟨mu, hmu⟩ := Option.ne_none_iff_exists'.mp hk
    refine ⟨⟨A.species, none, A.bunch_number + B.bunch_number, A.positionSigma,
        "combined " ++ B.bunchName, renameFrom 0 (A.bunch ++ B.bunch)⟩,
      by simp [Bunch.add, hsp.symm, hmu], rfl, ?_, rfl, rfl, ?_⟩
    · simp [renameFrom_length]
    · intro i h h'
      simpa using renameFrom_get (A.bunch ++ B.bunch) 0 i (by simpa using h) h'
  · intro hsp
    have hne : ¬ (B.species = A.species) := fun h => hsp h.symm
    simp [Bunch.add, hne]
  · intro hsp hk
    simp [Bunch.add, hsp.symm, hk]

/-- Claim C2, witness: the amended theorem applied to two concrete
one-member proton bunches. -/
theorem claim2_add_combined_witness :
    (bunchOne.species = bunchOne.species ∧ bunchOne.average_kinetic_energy ≠ none) ∧
    (∃ C, bunchOne.add bunchOne = Except.ok C ∧
        C.bunch_number = bunchOne.bunch_number + bunchOne.bunch_number ∧
        C.bunch.length = bunchOne.bunch.length + bunchOne.bunch.length ∧
        C.average_kinetic_energy = none ∧
        C.bunchName = "combined " ++ bunchOne.bunchName ∧
        ∀ i (h : i < C.bunch.length) (h' : i < (bunchOne.bunch ++ bunchOne.bunch).length),
          C.bunch.get ⟨i, h⟩ = renameAt i ((bunchOne.bunch ++ bunchOne.bunch).get ⟨i, h'⟩)) :=
  ⟨⟨rfl, by simp [bunchOne]⟩,
    (claim2_add_combined bunchOne bunchOne).1 rfl (by simp [bunchOne])⟩

/-- Speed of light in m/s as scipy.constants.c provides it. -/
def cLight : ℚ := 299792458

/-- Bunch.averageVelocity (Bunch.py lines 150-154): componentwise mean of the
member velocities.  On an empty bunch numpy would produce NaN; in this exact
model the division by zero yields 0, so theorems about the derived
quantities carry a nonemptiness hypothesis. -/
def Bunch.averageVelocity (self : Bunch) : Vec3 :=
  let n : ℚ := self.bunch.length
  ⟨(self.bunch.map fun i => i.velocity.x).sum / n,
   (self.bunch.map fun i => i.velocity.y).sum / n,
   (self.bunch.map fun i => i.velocity.z).sum / n⟩

/-- Squared magnitude of the average velocity.  The source computes
speed = np.linalg.norm(averageVelocity()) and then uses speed * speed, which
in exact arithmetic is this sum of squares. -/
def Bunch.speedSq (self : Bunch) : ℚ :=
  let v := self.averageVelocity
  v.x * v.x + v.y * v.y + v.z * v.z

/-- Bunch.gamma (Bunch.py lines 205-211): the source returns
1 / math.sqrt(1 - speed^2 / c^2).  The square root of a rational is
irrational in general, so the ok value of this model is the radicand
1 - speed^2 / c^2, and the Python return value is 1 / sqrt of it; that
bijection preserves everything the claims need.  math.sqrt raises a
ValueError on a negative argument, and Python float division 1 / 0.0 raises
a ZeroDivisionError, so these are the error outcomes. -/
def Bunch.gamma (self : Bunch) : Except PyError ℚ :=
  let r := 1 - self.speedSq / (cLight * cLight)
  if r < 0 then .error .valueError
  else if r = 0 then .error .zeroDivisionError
  else .ok r

/-- A one-member bunch whose member moves at twice the speed of light along
x, so the average speed exceeds c. -/
def bunchSuperluminal : Bunch :=
  ⟨"ProtonBunch", some 1, 1, 1/100, "Proton bunch",
    [⟨"proton-1", ⟨0, 0, 0⟩, ⟨2 * cLight, 0, 0⟩⟩]⟩

/-- Claim C7, counterexample: on a bunch whose average speed exceeds c,
gamma() raises a ValueError (math.sqrt of a negative argument) instead of
producing the undefined/NaN return value the claim asserts. -/
theorem claim7_counterexample :
    bunchSuperluminal.gamma = Except.error PyError.valueError := by
  unfold Bunch.gamma
  rw [if_pos]
  norm_num [Bunch.speedSq, Bunch.averageVelocity, bunchSuperluminal, cLight]

/-- Claim C7, amended: gamma() computes 1 / sqrt(1 - (speed/c)^2) from the
magnitude of the average member velocity, with no internal guard; but the
superluminal case raises instead of returning NaN: when the average speed
exceeds c the negative radicand makes math.sqrt raise a ValueError, and when
it equals c the division 1 / 0.0 raises a ZeroDivisionError.  The
nonemptiness hypothesis keeps the statement inside the domain where exact
rational averaging models the numpy mean. -/
theorem claim7_gamma (b : Bunch) (_hne : b.bunch ≠ []) :
    b.gamma =
      if cLight * cLight < b.speedSq then Except.error PyError.valueError
      else if b.speedSq = cLight * cLight then Except.error PyError.zeroDivisionError
      else Except.ok (1 - b.speedSq / (cLight * cLight)) := by
  have hc : (0 : ℚ) < cLight * cLight := by norm_num [cLight]
  have h1 : (1 - b.speedSq / (cLight * cLight) < 0) ↔ cLight * cLight < b.speedSq := by
    rw [sub_neg, lt_div_iff₀ hc, one_mul]
  have h2 : (1 - b.speedSq / (cLight * cLight) = 0) ↔ b.speedSq = cLight * cLight := by
    rw [sub_eq_zero, eq_comm, div_eq_one_iff_eq hc.ne']
  simp only [Bunch.gamma, h1, h2]

/-- Claim C7, witness: the amended theorem applied to a concrete one-member
bunch at rest, where gamma() succeeds with radicand 1. -/
theorem claim7_gamma_witness :
    bunchOne.bunch ≠ [] ∧
    bunchOne.gamma =
      (if cLight * cLight < bunchOne.speedSq then Except.error PyError.valueError
       else if bunchOne.speedSq = cLight * cLight then Except.error PyError.zeroDivisionError
       else Except.ok (1 - bunchOne.speedSq / (cLight * cLight))) :=
  ⟨by simp [bunchOne], claim7_gamma bunchOne (by simp [bunchOne])⟩

/-- Bunch.assignPositions (Bunch.py lines 113-124):
np.random.normal(0, positionSigma, (bunch_number, 3)) draws a row of three
coordinates per intended member (ValueError when the scale is negative),
then the loop sets the z-ordinate of every row to exactly 0.  Draw number
3 * i + j of the stream is ordinate j of row i; the sampled z-value is
discarded by the overwrite. -/
def Bunch.assignPositions (self : Bunch) (zs : ℕ → ℚ) : Except PyError (List Vec3) :=
  if self.positionSigma < 0 then .error .valueError
  else .ok ((List.range self.bunch_number).map fun i =>
    ⟨self.positionSigma * zs (3 * i), self.positionSigma * zs (3 * i + 1), 0⟩)

/-- Claim C8: for a bunch with a nonnegative position sigma (negative sigmas
cannot survive construction, where the very same sampling call would raise)
whose particle count matches its member count, assignPositions returns
exactly one 3D vector per member, and the third coordinate of every returned
vector is exactly 0. -/
theorem claim8_assignPositions (b : Bunch) (zs : ℕ → ℚ)
    (hsig : 0 ≤ b.positionSigma) (hcount : b.bunch_number = b.bunch.length) :
    ∃ l, b.assignPositions zs = Except.ok l ∧ l.length = b.bunch.length ∧
      ∀ v ∈ l, v.z = 0 := by
  refine ⟨(List.range b.bunch_number).map fun i =>
      ⟨b.positionSigma * zs (3 * i), b.positionSigma * zs (3 * i + 1), 0⟩, ?_, ?_, ?_⟩
  · unfold Bunch.assignPositions
    rw [if_neg (not_lt.mpr hsig)]
  · simpa using hcount
  · intro v hv
    simp only [List.mem_map, List.mem_range] at hv
    obtain ⟨i, _, rfl⟩ := hv
    rfl

/-- Claim C8, witness: the theorem applied to a concrete one-member bunch
and the constant draw stream. -/
theorem claim8_assignPositions_witness :
    (0 ≤ bunchOne.positionSigma ∧ bunchOne.bunch_number = bunchOne.bunch.length) ∧
    (∃ l, bunchOne.assignPositions (fun _ => 0) = Except.ok l ∧
      l.length = bunchOne.bunch.length ∧ ∀ v ∈ l, v.z = 0) :=
  ⟨⟨by norm_num [bunchOne], rfl⟩,
    claim8_assignPositions bunchOne (fun _ => 0) (by norm_num [bunchOne]) rfl⟩

/-- Modelled from the spec: the per-particle stepping operations live on the
external Particle class, which is not under src.  Per the spec each entity
exposes four stepping operations, Euler and Euler-Cromer consuming only a
timestep, velocity Verlet and 4th-order Runge-Kutta consuming the timestep,
the field and the current time.  The update dispatcher under verification is
parametric in these operations. -/
structure Integrators where
  euler : ℚ → Particle → Particle
  eulerCromer : ℚ → Particle → Particle
  velocityVerlet : ℚ → EMField → ℚ → Particle → Particle
  rungeKutta4 : ℚ → EMField → ℚ → Particle → Particle

/-- Warning text logged by Bunch.update on an unrecognized selector. -/
def warnInvalid : String :=
  "Invalid set_method parameter, defaulting to fourth order Runge-Kutta"

/-- Bunch.update (Bunch.py lines 236-273): dispatches the selected stepping
operation across every member; any selector other than 0, 1, 2, 3 falls into
the else branch, which logs a warning and applies 4th-order Runge-Kutta.
The second component collects the logged warnings. -/
def Bunch.update (self : Bunch) (I : Integrators) (deltaT : ℚ) (field : EMField)
    (time : ℚ) (set_method : ℤ) : Bunch × List String :=
  if set_method = 0 then
    ({ self with bunch := self.bunch.map (I.euler deltaT) }, [])
  else if set_method = 1 then
    ({ self with bunch := self.bunch.map (I.eulerCromer deltaT) }, [])
  else if set_method = 2 then
    ({ self with bunch := self.bunch.map (I.velocityVerlet deltaT field time) }, [])
  else if set_method = 3 then
    ({ self with bunch := self.bunch.map (I.rungeKutta4 deltaT field time) }, [])
  else
    ({ self with bunch := self.bunch.map (I.rungeKutta4 deltaT field time) }, [warnInvalid])

/-- Claim C5: for any stepping operations, bunch, field, time and timestep,
update with an unrecognized selector (anything outside 0, 1, 2, 3, such as
4) produces exactly the member states of update with selector 3 on the same
inputs, and differs only in emitting the invalid-selector warning. -/
theorem claim5_update_fallback (I : Integrators) (b : Bunch) (deltaT : ℚ)
    (field : EMField) (time : ℚ) (m : ℤ)
    (h0 : m ≠ 0) (h1 : m ≠ 1) (h2 : m ≠ 2) (h3 : m ≠ 3) :
    (b.update I deltaT field time m).1 = (b.update I deltaT field time 3).1 ∧
    (b.update I deltaT field time m).2 = [warnInvalid] ∧
    (b.update I deltaT field time 3).2 = [] := by
  simp [Bunch.update, h0, h1, h2, h3]

/-- Stepping operations that leave every particle unchanged, used only to
instantiate the dispatch theorems at a concrete input. -/
def integratorsId : Integrators :=
  ⟨fun _ p => p, fun _ p => p, fun _ _ _ p => p, fun _ _ _ p => p⟩

/-- Claim C5, witness: the fallback theorem applied at selector 4 with
concrete stepping operations, bunch and field. -/
theorem claim5_update_fallback_witness :
    ((4 : ℤ) ≠ 0 ∧ (4 : ℤ) ≠ 1 ∧ (4 : ℤ) ≠ 2 ∧ (4 : ℤ) ≠ 3) ∧
    ((bunchOne.update integratorsId 1 ⟨-1, 1⟩ 0 4).1 =
        (bunchOne.update integratorsId 1 ⟨-1, 1⟩ 0 3).1 ∧
      (bunchOne.update integratorsId 1 ⟨-1, 1⟩ 0 4).2 = [warnInvalid] ∧
      (bunchOne.update integratorsId 1 ⟨-1, 1⟩ 0 3).2 = []) :=
  ⟨by decide,
    claim5_update_fallback integratorsId bunchOne 1 ⟨-1, 1⟩ 0 4
      (by decide) (by decide) (by decide) (by decide)⟩

/-- Claim C10: for selectors 0 (Euler) and 1 (Euler-Cromer) the result of
update is independent of the field and time arguments: the dispatched
stepping operations consume only the timestep. -/
theorem claim10_euler_field_independent (I : Integrators) (b : Bunch)
    (deltaT : ℚ) (field field2 : EMField) (time time2 : ℚ) :
    b.update I deltaT field time 0 = b.update I deltaT field2 time2 0 ∧
    b.update I deltaT field time 1 = b.update I deltaT field2 time2 1 := by
  constructor <;> simp [Bunch.update]

/-- Model of one numpy normal draw np.random.normal(mu, sigma) given the
next standard-normal value z of the draw stream. -/
def normalDraw (mu sigma z : ℚ) : ℚ := mu + sigma * z

/-- One execution of the for-loop inside the while loop of
Bunch.distributeEnergies (Bunch.py lines 136-140).  Python iterates over the
numpy array by position while mutating it, so the mutation is visible to
later iterations; m is the number of positions still to visit and i the
current position.  When the value v at position i is nonpositive, the code
rebuilds energies_list and stores a fresh draw at
energies_list.index(energy), the first position currently holding v (not
necessarily position i). -/
def passFrom (mu sigma : ℚ) (zs : ℕ → ℚ) : ℕ → ℕ → List ℚ → ℕ → List ℚ × ℕ
  | 0, _, es, k => (es, k)
  | m + 1, i, es, k =>
    if h : i < es.length then
      let v := es.get ⟨i, h⟩
      if v ≤ 0 then
        passFrom mu sigma zs m (i + 1)
          (es.set (es.findIdx fun x => decide (x = v)) (normalDraw mu sigma (zs k))) (k + 1)
      else
        passFrom mu sigma zs m (i + 1) es k
    else (es, k)

/-- The while loop of Bunch.distributeEnergies: the condition
all(i > 0 for i in energies) is tested before every iteration; fuel bounds
the number of iterations and none means the loop was still running when the
fuel ran out. -/
def energiesLoop (mu sigma : ℚ) (zs : ℕ → ℚ) : ℕ → List ℚ → ℕ → Option (List ℚ)
  | 0, es, _ => if ∀ e ∈ es, 0 < e then some es else none
  | fuel + 1, es, k =>
    if ∀ e ∈ es, 0 < e then some es
    else
      let r := passFrom mu sigma zs es.length 0 es k
      energiesLoop mu sigma zs fuel r.1 r.2

/-- Body of Bunch.distributeEnergies (Bunch.py lines 126-141) given the mean
read from average_kinetic_energy: sigma is 0.0001 * mu (the docstring says 1
percent, the code says 0.01 percent); the initial call
np.random.normal(mu, sigma, n) raises a ValueError when sigma < 0, consumes
draws 0..n-1, and then the resample loop runs. -/
def distributeEnergiesCore (mu : ℚ) (n : ℕ) (zs : ℕ → ℚ) (fuel : ℕ) :
    Except PyError (Option (List ℚ)) :=
  let sigma := (1/10000) * mu
  if sigma < 0 then .error .valueError
  else .ok (energiesLoop mu sigma zs fuel ((List.range n).map fun i => normalDraw mu sigma (zs i)) n)

/-- Bunch.distributeEnergies: reading self.average_kinetic_energy raises an
AttributeError when the attribute was deleted by a combine. -/
def Bunch.distributeEnergies (self : Bunch) (zs : ℕ → ℚ) (fuel : ℕ) :
    Except PyError (Option (List ℚ)) :=
  match self.average_kinetic_energy with
  | none => .error .attributeError
  | some mu => distributeEnergiesCore mu self.bunch_number zs fuel

theorem passFrom_length (mu sigma : ℚ) (zs : ℕ → ℚ) :
    ∀ m i es k, ((passFrom mu sigma zs m i es k).1).length = es.length := by
  intro m
  induction m with
  | zero => intro i es k; rfl
  | succ m ih =>
    intro i es k
    unfold passFrom
    by_cases h : i < es.length
    · rw [dif_pos h]
      by_cases hv : es.get ⟨i, h⟩ ≤ 0
      · rw [if_pos hv, ih]
        exact List.length_set ..
      · rw [if_neg hv, ih]
    · rw [dif_neg h]

theorem energiesLoop_some (mu sigma : ℚ) (zs : ℕ → ℚ) :
    ∀ fuel es k es', energiesLoop mu sigma zs fuel es k = some es' →
      es'.length = es.length ∧ ∀ e ∈ es', 0 < e := by
  intro fuel
  induction fuel with
  | zero =>
    intro es k es' h
    unfold energiesLoop at h
    by_cases hall : ∀ e ∈ es, 0 < e
    · rw [if_pos hall] at h
      cases h
      exact ⟨rfl, hall⟩
    · rw [if_neg hall] at h
      cases h
  | succ fuel ih =>
    intro es k es' h
    unfold energiesLoop at h
    by_cases hall : ∀ e ∈ es, 0 < e
    · rw [if_pos hall] at h
      cases h
      exact ⟨rfl, hall⟩
    · rw [if_neg hall] at h
      obtain ⟨h1, h2⟩ := ih _ _ _ h
      exact ⟨h1.trans (passFrom_length mu sigma zs ..), h2⟩

/-- Claim C4: for a bunch whose average kinetic energy attribute holds a
positive mean, whenever distributeEnergies returns (within any fuel bound),
it returns exactly bunch_number values, all strictly positive: the resample
loop exits only when every sample is simultaneously positive. -/
theorem claim4_distributeEnergies (b : Bunch) (zs : ℕ → ℚ) (fuel : ℕ)
    (mu : ℚ) (es : List ℚ)
    (hmu : b.average_kinetic_energy = some mu) (hpos : 0 < mu)
    (hret : b.distributeEnergies zs fuel = Except.ok (some es)) :
    es.length = b.bunch_number ∧ ∀ e ∈ es, 0 < e := by
  simp only [Bunch.distributeEnergies, hmu, distributeEnergiesCore] at hret
  rw [if_neg (not_lt.mpr (mul_nonneg (by norm_num) hpos.le))] at hret
  have hloop := Except.ok.inj hret
  obtain ⟨h1, h2⟩ := energiesLoop_some mu ((1/10000) * mu) zs fuel _ _ es hloop
  refine ⟨?_, h2⟩
  simpa using h1

/-- Claim C4, witness: the theorem applied to a concrete one-member bunch
with mean 1 eV and the constant draw stream; the loop exits at once with the
all-positive sample list. -/
theorem claim4_distributeEnergies_witness :
    (bunchOne.average_kinetic_energy = some 1 ∧ (0 : ℚ) < 1 ∧
      bunchOne.distributeEnergies (fun _ => 0) 1 = Except.ok (some [1])) ∧
    (([1] : List ℚ).length = bunchOne.bunch_number ∧ ∀ e ∈ ([1] : List ℚ), 0 < e) := by
  have hret : bunchOne.distributeEnergies (fun _ => 0) 1 = Except.ok (some [1]) := by
    norm_num [Bunch.distributeEnergies, bunchOne, distributeEnergiesCore, energiesLoop, normalDraw]
  exact ⟨⟨rfl, by norm_num, hret⟩,
    claim4_distributeEnergies bunchOne (fun _ => 0) 1 1 [1] rfl (by norm_num) hret⟩

/-- Modelled from the spec: the species-specific construction steps
(ProtonBunch.createBunch and ProtonBunch.assignVelocities) are not under
src.  Per the spec, construction must in order sample positions, sample
energies, derive per-particle velocities from the energies via the
species-specific assignVel, and materialize the members; any failure
propagates and no bunch object is produced.  Bunch.__init__ itself
(Bunch.py lines 82-90) stores the attributes with no validation of
AverageKinetic and delegates to createBunch. -/
def Bunch.init (species bunchName : String) (assignVel : ℚ → Vec3)
    (AverageKinetic : ℚ) (particleNumber : ℕ) (positionSigma : ℚ)
    (zpos zen : ℕ → ℚ) (fuel : ℕ) : Except PyError (Option Bunch) :=
  let proto : Bunch :=
    ⟨species, some AverageKinetic, particleNumber, positionSigma, bunchName, []⟩
  do
    let ps ← proto.assignPositions zpos
    let er ← proto.distributeEnergies zen fuel
    pure (er.map fun es =>
      { proto with bunch := (List.range particleNumber).map fun i =>
          { name := bunchName ++ toString (i + 1)
            position := ps.getD i ⟨0, 0, 0⟩
            velocity := assignVel (es.getD i 0) } })

/-- Claim C6, counterexample: constructing a bunch with average kinetic
energy exactly 0 never fails: the sampling scale 0.0001 * 0 = 0 is accepted
by numpy (every draw then equals the mean 0 exactly), so no error is raised
at any fuel bound — instead the resample loop, forever redrawing the value
0, never terminates, and no error ever propagates to the caller. -/
theorem claim6_counterexample :
    ¬ ∃ fuel e, Bunch.init "ProtonBunch" "proton-" (fun _ => ⟨0, 0, 0⟩) 0 3 (1/100)
        (fun _ => 0) (fun _ => 0) fuel = Except.error e := by
  rintro ⟨fuel, e, h⟩
  simp only [Bunch.init, Bunch.assignPositions, Bunch.distributeEnergies,
    distributeEnergiesCore, bind, Except.bind, pure, Except.pure] at h
  norm_num at h
  exact Except.noConfusion h

/-- Claim C6, amended: constructing a bunch with a strictly negative average
kinetic energy mean fails with an error that propagates to the caller (the
derived sampling scale 0.0001 * mean is negative, so the numpy draw raises a
ValueError inside the delegated energy-sampling step) and no bunch object is
produced; a mean of exactly 0 does not fail — construction never returns
because the resample loop never terminates. -/
theorem claim6_init_negative_mean (species bn : String) (av : ℚ → Vec3)
    (mu : ℚ) (n : ℕ) (psig : ℚ) (zp ze : ℕ → ℚ) (fuel : ℕ)
    (hps : 0 ≤ psig) (hneg : mu < 0) :
    Bunch.init species bn av mu n psig zp ze fuel = Except.error PyError.valueError := by
  simp only [Bunch.init, Bunch.assignPositions, Bunch.distributeEnergies, distributeEnergiesCore]
  rw [if_neg (not_lt.mpr hps), if_pos (mul_neg_of_pos_of_neg (by norm_num) hneg)]
  rfl

/-- Claim C6, witness: the amended theorem applied at the concrete mean -1. -/
theorem claim6_init_negative_mean_witness :
    ((0 : ℚ) ≤ 1/100 ∧ (-1 : ℚ) < 0) ∧
    Bunch.init "ProtonBunch" "proton-" (fun _ => ⟨0, 0, 0⟩) (-1) 3 (1/100)
        (fun _ => 0) (fun _ => 0) 0 = Except.error PyError.valueError :=
  ⟨⟨by norm_num, by norm_num⟩,
    claim6_init_negative_mean "ProtonBunch" "proton-" (fun _ => ⟨0, 0, 0⟩) (-1) 3 (1/100)
      (fun _ => 0) (fun _ => 0) 0 (by norm_num) (by norm_num)⟩

/-- The particle heap: a total map from addresses to particle values.  Used
to reason about aliasing and in-place mutation, which the value-level Bunch
cannot express. -/
def Heap := ℕ → Particle

/-- In-place mutation of the object at address a. -/
def writeH (σ : Heap) (a : ℕ) (p : Particle) : Heap :=
  fun x => if x = a then p else σ x

/-- Allocate the given values at consecutive fresh addresses starting at
next; returns the new heap and the next free address. -/
def allocList (σ : Heap) (next : ℕ) (vals : List Particle) : Heap × ℕ :=
  vals.foldl (fun acc p => (writeH acc.1 acc.2 p, acc.2 + 1)) (σ, next)

/-- Heap-level state of a Bunch object: the member list holds references. -/
structure HBunch where
  species : String
  average_kinetic_energy : Option ℚ
  bunch_number : ℕ
  positionSigma : ℚ
  bunchName : String
  members : List ℕ
deriving DecidableEq, Repr

/-- copy.deepcopy of a bunch: fresh addresses holding copies of the current
member values, in member order. -/
def deepcopyH (σ : Heap) (next : ℕ) (b : HBunch) : Heap × ℕ × HBunch :=
  let r := allocList σ next (b.members.map σ)
  (r.1, r.2, { b with members := List.range' next b.members.length })

/-- The rename loop of Bunch.__add__ run on the heap: the object referenced
at position k of the combined member list is renamed in place (the Python
loop assigns particle.name = particle.name[:-1] + str(index + 1) on the
object itself). -/
def renameHeapFrom (σ : Heap) (k : ℕ) : List ℕ → Heap
  | [] => σ
  | a :: as => renameHeapFrom (writeH σ a (renameAt k (σ a))) (k + 1) as

/-- Bunch.__add__ on the heap (Bunch.py lines 100-111): deep-copies only the
left operand, appends the right operand member references unchanged — the
combined bunch and the right operand then share those objects — and renames
every referenced object in place, mutating the shared ones. -/
def HBunch.add (σ : Heap) (next : ℕ) (self other : HBunch) :
    Except PyError (Heap × ℕ × HBunch) :=
  if other.species = self.species then
    match self.average_kinetic_energy with
    | none => .error .attributeError
    | some _ =>
      let r := deepcopyH σ next self
      let members := r.2.2.members ++ other.members
      let σ2 := renameHeapFrom r.1 0 members
      .ok (σ2, r.2.1,
        { species := self.species
          average_kinetic_energy := none
          bunch_number := self.bunch_number + other.bunch_number
          positionSigma := self.positionSigma
          bunchName := "combined " ++ other.bunchName
          members := members })
  else .error .typeError

/-- Concrete heap for the aliasing evaluation: address 0 holds the single
member of the left bunch, address 1 the single member of the right bunch. -/
def heapEx : Heap := fun a =>
  if a = 1 then ⟨"proton-1", ⟨1, 0, 0⟩, ⟨0, 0, 0⟩⟩ else ⟨"proton-1", ⟨0, 0, 0⟩, ⟨0, 0, 0⟩⟩

/-- Left operand of the aliasing evaluation: one member, at address 0. -/
def hBunchA : HBunch := ⟨"ProtonBunch", some 1, 1, 1/100, "Proton bunch", [0]⟩

/-- Right operand of the aliasing evaluation: one member, at address 1. -/
def hBunchB : HBunch := ⟨"ProtonBunch", some 1, 1, 1/100, "Proton bunch", [1]⟩

/-- Claim C3, heap evaluation at the failing input: combining the two
one-member bunches produces a combined bunch whose member list is [2, 1] —
address 1 is shared with the live right operand — and the rename loop has
mutated the shared object in place: its stored name changes from proton-1 to
proton-2, so the right operand observes its own member renamed. -/
theorem claim3_add_aliases_and_mutates :
    (HBunch.add heapEx 2 hBunchA hBunchB).map (fun r => r.2.2.members) = Except.ok [2, 1] ∧
    1 ∈ hBunchB.members ∧
    (HBunch.add heapEx 2 hBunchA hBunchB).map (fun r => (r.1 1).name) = Except.ok "proton-2" ∧
    (heapEx 1).name = "proton-1" := by
  refine ⟨rfl, ?_, rfl, rfl⟩
  simp [hBunchB]

/-- State owned by the simulation driver (RecordSynchrocyclotron.py): the
particle heap, the next free address, the references held by the live bunch
(protons.bunch), and the snapshot series Data (each recorded snapshot is the
member reference list of one deep copy). -/
structure SimState where
  heap : Heap
  next : ℕ
  live : List ℕ
  snaps : List (List ℕ)

/-- Overwrite the objects at the given addresses with the given values, one
write per position pair, in order. -/
def writeVals (σ : Heap) : List ℕ → List Particle → Heap
  | [], _ => σ
  | _ :: _, [] => σ
  | a :: as, v :: vs => writeVals (writeH σ a v) as vs

/-- Modelled from the spec: one iteration of the driver loop
(RecordSynchrocyclotron.py lines 27-34) after the time bookkeeping.
field.getAcceleration(protons.bunch, time, dt) and protons.update(...)
(EMField and the Particle stepping operations are not under src) mutate the
live member objects in place and nothing else, so their combined effect is
modelled as overwriting the live members with arbitrary new values; then
temp_bunch = copy.deepcopy(protons) copies the live members to fresh
addresses and Data.append(temp_bunch) records the copy in the series. -/
def simStep (vals : List Particle) (s : SimState) : SimState :=
  let σ1 := writeVals s.heap s.live vals
  let r := allocList σ1 s.next (s.live.map σ1)
  { heap := r.1, next := r.2, live := s.live,
    snaps := s.snaps ++ [List.range' s.next s.live.length] }

/-- Run the driver loop for one list of per-iteration mutation effects. -/
def simRun : List (List Particle) → SimState → SimState
  | [], s => s
  | v :: vs, s => simRun vs (simStep v s)

/-- Well-formedness of a driver state: every address the state mentions has
been allocated, and recorded snapshots never reference a live member. -/
def SimWF (s : SimState) : Prop :=
  (∀ a ∈ s.live, a < s.next) ∧ ∀ sp ∈ s.snaps, ∀ a ∈ sp, a < s.next ∧ a ∉ s.live

theorem writeH_ne (σ : Heap) (a : ℕ) (p : Particle) (x : ℕ) (h : x ≠ a) :
    writeH σ a p x = σ x :=
  if_neg h

theorem writeVals_not_mem (σ : Heap) :
    ∀ (as : List ℕ) (vs : List Particle) (a : ℕ), a ∉ as →
      writeVals σ as vs a = σ a := by
  intro as
  induction as generalizing σ with
  | nil => intro vs a _; rfl
  | cons b bs ih =>
    intro vs a ha
    cases vs with
    | nil => rfl
    | cons v vs =>
      have hne : a ≠ b := fun h => ha (h ▸ List.mem_cons_self b bs)
      have hnb : a ∉ bs := fun h => ha (List.mem_cons_of_mem b h)
      rw [writeVals, ih _ _ _ hnb, writeH_ne _ _ _ _ hne]

theorem allocList_cons (σ : Heap) (next : ℕ) (v : Particle) (vs : List Particle) :
    allocList σ next (v :: vs) = allocList (writeH σ next v) (next + 1) vs :=
  rfl

theorem allocList_snd (vals : List Particle) :
    ∀ (σ : Heap) (next : ℕ), (allocList σ next vals).2 = next + vals.length := by
  induction vals with
  | nil => intro σ next; rfl
  | cons v vs ih =>
    intro σ next
    rw [allocList_cons, ih, List.length_cons]
    omega

theorem allocList_fst_lt (vals : List Particle) :
    ∀ (σ : Heap) (next a : ℕ), a < next → (allocList σ next vals).1 a = σ a := by
  induction vals with
  | nil => intro σ next a _; rfl
  | cons v vs ih =>
    intro σ next a h
    rw [allocList_cons, ih _ _ _ (Nat.lt_succ_of_lt h)]
    exact writeH_ne σ next v a (Nat.ne_of_lt h)

theorem allocList_reads (vals : List Particle) :
    ∀ (σ : Heap) (next : ℕ),
      (List.range' next vals.length).map (allocList σ next vals).1 = vals := by
  induction vals with
  | nil => intro σ next; rfl
  | cons v vs ih =>
    intro σ next
    rw [List.length_cons, List.range'_succ, List.map_cons, allocList_cons,
      allocList_fst_lt vs _ _ _ (Nat.lt_succ_self next), ih]
    simp [writeH]

theorem map_congr_mem {α β : Type} (l : List α) (f g : α → β)
    (h : ∀ a ∈ l, f a = g a) : l.map f = l.map g := by
  induction l with
  | nil => rfl
  | cons x xs ih =>
    rw [List.map_cons, List.map_cons, h x (List.mem_cons_self x xs),
      ih fun a ha => h a (List.mem_cons_of_mem x ha)]

theorem simStep_preserves_old (s : SimState) (vals : List Particle)
    (h : SimWF s) (sp : List ℕ) (hsp : sp ∈ s.snaps) :
    sp.map (simStep vals s).heap = sp.map s.heap := by
  apply map_congr_mem
  intro a ha
  obtain ⟨hlt, hnl⟩ := h.2 sp hsp a ha
  show (allocList (writeVals s.heap s.live vals) s.next _).1 a = s.heap a
  rw [allocList_fst_lt _ _ _ _ hlt, writeVals_not_mem _ _ _ _ hnl]

theorem simStep_new_snap_reads (vals : List Particle) (s : SimState) :
    (List.range' s.next s.live.length).map (simStep vals s).heap
      = s.live.map (writeVals s.heap s.live vals) := by
  have h := allocList_reads (s.live.map (writeVals s.heap s.live vals))
    (writeVals s.heap s.live vals) s.next
  rw [List.length_map] at h
  exact h

theorem simStep_WF (vals : List Particle) (s : SimState) (h : SimWF s) :
    SimWF (simStep vals s) := by
  obtain ⟨h1, h2⟩ := h
  simp only [SimWF, simStep, allocList_snd, List.length_map]
  constructor
  · intro a ha
    have := h1 a ha
    omega
  · intro sp hsp a ha
    rcases List.mem_append.mp hsp with hold | hnew
    · obtain ⟨hlt, hnl⟩ := h2 sp hold a ha
      exact ⟨by omega, hnl⟩
    · have hsp' : sp = List.range' s.next s.live.length := by
        simpa using hnew
      subst hsp'
      have hm := List.mem_range'_1.mp ha
      refine ⟨by omega, fun hc => ?_⟩
      have := h1 a hc
      omega

theorem simRun_preserves (upds : List (List Particle)) :
    ∀ s : SimState, SimWF s → ∀ sp ∈ s.snaps,
      sp.map (simRun upds s).heap = sp.map s.heap := by
  induction upds with
  | nil => intro s _ sp _; rfl
  | cons v vs ih =>
    intro s hwf sp hsp
    have hsp' : sp ∈ (simStep v s).snaps := by
      show sp ∈ s.snaps ++ _
      exact List.mem_append.mpr (Or.inl hsp)
    rw [simRun, ih _ (simStep_WF v s hwf) sp hsp', simStep_preserves_old s v hwf sp hsp]

/-- Claim C9: in a well-formed driver state, the snapshot appended by a loop
iteration records exactly the post-mutation values of the live members (a
fully independent deep copy taken at that step), and every snapshot present
after the iteration — the earlier ones and the new one — reads back
unchanged after any number of further iterations with arbitrary mutation
effects on the live bunch: no aliasing ever lets a later field-acceleration
or update mutation reach a recorded snapshot. -/
theorem claim9_snapshots_independent (s : SimState) (h : SimWF s)
    (vals : List Particle) (future : List (List Particle)) :
    (simStep vals s).snaps = s.snaps ++ [List.range' s.next s.live.length] ∧
    (List.range' s.next s.live.length).map (simStep vals s).heap
      = s.live.map (writeVals s.heap s.live vals) ∧
    ∀ sp ∈ (simStep vals s).snaps,
      sp.map (simRun future (simStep vals s)).heap = sp.map (simStep vals s).heap :=
  ⟨rfl, simStep_new_snap_reads vals s,
    simRun_preserves future _ (simStep_WF vals s h)⟩

/-- Concrete driver state: one live member at address 0, one snapshot
already recorded at address 1, next free address 2 (the shape the driver is
in right after its initial deep copy). -/
def simStateEx : SimState := ⟨fun _ => particleDefault, 2, [0], [[1]]⟩

/-- Claim C9, witness: the theorem applied to the concrete driver state, one
concrete mutation effect and one further iteration. -/
theorem claim9_snapshots_independent_witness :
    SimWF simStateEx ∧
    ((simStep [particleDefault] simStateEx).snaps =
        simStateEx.snaps ++ [List.range' simStateEx.next simStateEx.live.length] ∧
      (List.range' simStateEx.next simStateEx.live.length).map
          (simStep [particleDefault] simStateEx).heap
        = simStateEx.live.map (writeVals simStateEx.heap simStateEx.live [particleDefault]) ∧
      ∀ sp ∈ (simStep [particleDefault] simStateEx).snaps,
        sp.map (simRun [[particleDefault]] (simStep [particleDefault] simStateEx)).heap
          = sp.map (simStep [particleDefault] simStateEx).heap) :=
  ⟨by unfold SimWF simStateEx; decide,
    claim9_snapshots_independent simStateEx (by unfold SimWF simStateEx; decide)
      [particleDefault] [[particleDefault]]⟩
